import Mathlib

/-!
Verification of the checkpoint_schedules repository (H-Revolve and two-level
binomial checkpointing schedules).

The development shallowly embeds the Python sources:

* src/checkpoint_schedules/hrevolve_sequence/hrevolve.py
  (get_hopt_table, hrevolve_aux, hrevolve, hrevolve_recurse)
* src/checkpoint_schedules/hrevolve.py (HRevolveCheckpointSchedule)
* src/checkpoint_schedules/twolevel_binomial.py (TwoLevelCheckpointSchedule)

Costs are embedded as rational numbers extended with a top element standing
for the Python float value inf; machine floats are modelled by exact
rationals.  Fallible Python code (raise statements, TypeError, KeyError,
unbound local variables) returns Except values.  Python lists mutated in
place are modelled by functional updates threaded through folds, preserving
the source's fill order exactly (including loop bounds).
-/

namespace CpSched

/-- Extended costs: rationals plus the float value inf. -/
abbrev Cost := WithTop ℚ

/-- Python range(a, b): the list a, a+1, ..., b-1 (empty when b ≤ a). -/
def pyRange (a b : ℕ) : List ℕ := List.range' a (b - a)

/-- A 3-dimensional cost table indexed [level][length][slots], as built by
get_hopt_table. -/
abbrev Tbl := List (List (List Cost))

/-- Reading a table cell; out-of-range reads return inf (all reads performed
by the source are in range). -/
def get3 (t : Tbl) (k l m : ℕ) : Cost := ((t.getD k []).getD l []).getD m ⊤

/-- Writing a table cell (functional update; all writes performed by the
source are in range, where List.set and the Python assignment agree). -/
def set3 (t : Tbl) (k l m : ℕ) (v : Cost) : Tbl :=
  t.set k ((t.getD k []).set l (((t.getD k []).getD l []).set m v))

/-- Errors of the embedded Python code.  Raise statements, TypeError,
KeyError on dict/set lookups and unbound local variables all become
error values. -/
inductive Err where
  | noMemory
  | auxZeroMem
  | typeError
  | invalidSchedule
  | invalidState
  | unexpectedAction
  | unboundLocal
  | keyError
  | indexError
  | assertionFailed
deriving DecidableEq, Repr

deriving instance DecidableEq for Except

/-- Bounds-checked table write: a Python list assignment out of range
raises IndexError. -/
def set3E (t : Tbl) (k l m : ℕ) (v : Cost) : Except Err Tbl :=
  if k < t.length ∧ l < (t.getD k []).length ∧ m < ((t.getD k []).getD l []).length then
    .ok (set3 t k l m v)
  else .error .indexError

/-- The initial tables of get_hopt_table: for each level i a
(lmax+1) x (cvect[i]+1) array filled with inf. -/
def initTbl (lmax : ℕ) (cvect : List ℕ) : Tbl :=
  cvect.map (fun c => List.replicate (lmax + 1) (List.replicate (c + 1) (⊤ : Cost)))

/-- Embedding of get_hopt_table (hrevolve_sequence/hrevolve.py, lines 62-95).
The state is the pair (optp, opt); every loop mirrors the source, including
the fill loops running over range(2, lmax) and, for k ≥ 1, range(1, lmax).
The length assertion, the read of cvect[0] on an empty architecture and
every table write are fallible, exactly as in Python (the writes to column
m = 1 of level 0 go out of range when cvect[0] = 0 and lmax ≥ 3). -/
def get_hopt_table (lmax : ℕ) (cvect : List ℕ) (wvect rvect : List ℚ)
    (cbwd cfwd : ℚ) : Except Err (Tbl × Tbl) :=
  let K := cvect.length
  if wvect.length = rvect.length ∧ rvect.length = cvect.length then do
    let init : Tbl × Tbl := (initTbl lmax cvect, initTbl lmax cvect)
    -- Initialize borders of the table
    let borders ← (pyRange 0 K).foldlM (fun (p : Tbl × Tbl) k => do
      let mmax := cvect.getD k 0
      let p ← (pyRange 0 (mmax + 1)).foldlM (fun (q : Tbl × Tbl) m => do
        let t1 ← set3E q.1 k 0 m ((cbwd : ℚ) : Cost)
        let t2 ← set3E q.2 k 0 m ((cbwd : ℚ) : Cost)
        Except.ok (t1, t2)) p
      (pyRange 0 (mmax + 1)).foldlM (fun (q : Tbl × Tbl) m =>
        if m = 0 ∧ k = 0 then Except.ok q
        else do
          let v : ℚ := cfwd + 2 * cbwd + rvect.getD 0 0
          let t1 ← set3E q.1 k 1 m (v : Cost)
          let t2 ← set3E q.2 k 1 m ((wvect.getD 0 0 + v : ℚ) : Cost)
          Except.ok (t1, t2)) p) init
    -- Fill K = 0
    let mmax0 ← match cvect with
      | [] => (Except.error Err.indexError : Except Err ℕ)
      | c :: _ => Except.ok c
    let p0 ← (pyRange 2 lmax).foldlM (fun (q : Tbl × Tbl) (l : ℕ) => do
      let v : ℚ := ((l : ℚ) + 1) * cbwd + (l : ℚ) * ((l : ℚ) + 1) / 2 * cfwd
          + (l : ℚ) * rvect.getD 0 0
      let t1 ← set3E q.1 0 l 1 (v : Cost)
      let t2 ← set3E q.2 0 l 1 ((wvect.getD 0 0 + v : ℚ) : Cost)
      Except.ok (t1, t2)) borders
    let p1 ← (pyRange 2 (mmax0 + 1)).foldlM (fun (q : Tbl × Tbl) m =>
      (pyRange 2 lmax).foldlM (fun (q : Tbl × Tbl) (l : ℕ) => do
        let cands : List Cost :=
          ((pyRange 1 l).map (fun (j : ℕ) =>
            (((j : ℚ) * cfwd : ℚ) : Cost) + get3 q.2 0 (l - j) (m - 1)
              + ((rvect.getD 0 0 : ℚ) : Cost) + get3 q.1 0 (j - 1) m))
            ++ [get3 q.1 0 l 1]
        let v := cands.foldr min (⊤ : Cost)
        let t1 ← set3E q.1 0 l m v
        let t2 ← set3E q.2 0 l m (((wvect.getD 0 0 : ℚ) : Cost) + v)
        Except.ok (t1, t2)) q) p0
    -- Fill K > 0
    (pyRange 1 K).foldlM (fun (p : Tbl × Tbl) k => do
      let mmax := cvect.getD k 0
      let p ← (pyRange 2 lmax).foldlM (fun (q : Tbl × Tbl) l => do
        let t2 ← set3E q.2 k l 0 (get3 q.2 (k - 1) l (cvect.getD (k - 1) 0))
        Except.ok (q.1, t2)) p
      (pyRange 1 (mmax + 1)).foldlM (fun (p : Tbl × Tbl) m =>
        (pyRange 1 lmax).foldlM (fun (q : Tbl × Tbl) (l : ℕ) => do
          let below := get3 q.2 (k - 1) l (cvect.getD (k - 1) 0)
          let cands : List Cost :=
            below ::
            (pyRange 1 l).map (fun (j : ℕ) =>
              (((j : ℚ) * cfwd : ℚ) : Cost) + get3 q.2 k (l - j) (m - 1)
                + ((rvect.getD k 0 : ℚ) : Cost) + get3 q.1 k (j - 1) m)
          let v := cands.foldr min (⊤ : Cost)
          let t1 ← set3E q.1 k l m v
          let t2 ← set3E q.2 k l m (min below (((wvect.getD k 0 : ℚ) : Cost) + v))
          Except.ok (t1, t2)) p) p) p1
  else .error .assertionFailed

/-! ## Operations and the H-Revolve sequence builder -/

/-- Kinds of low-level operations produced by the sequence builders
(hrevolve_sequence/basic_functions.py Operation types, as used by
hrevolve.py and by the adapter in checkpoint_schedules/hrevolve.py). -/
inductive OpKind where
  | Forward
  | Forwards
  | Backward
  | Read
  | Write
  | Discard
  | Write_Forward
  | Discard_Forward
deriving DecidableEq, Repr

/-- An operation index: either a single step number or a pair (the source
stores either an int or a two-element list). -/
inductive Idx where
  | int (n : ℤ)
  | pair (a b : ℤ)
deriving DecidableEq, Repr

/-- A low-level operation: a kind together with its index, exactly as the
builder creates it (Operation(type, index)). -/
structure RawOp where
  kind : OpKind
  index : Idx
deriving DecidableEq, Repr


/-- Modelled from the spec: basic_functions.py (the Sequence and Operation
classes) is not under src/.  Sequence.shift adds the shift to every step
index of every contained operation but not to the level field of a
(level, step) pair; Forward and Forwards carry (from, to) pairs of step
indices, Read, Write, Discard, Write_Forward and Discard_Forward carry
(level, step) pairs, Backward carries a single step. -/
def RawOp.shift (d : ℕ) : RawOp → RawOp
  | ⟨.Backward, .int n⟩ => ⟨.Backward, .int (n + d)⟩
  | ⟨.Forward, .pair a b⟩ => ⟨.Forward, .pair (a + d) (b + d)⟩
  | ⟨.Forwards, .pair a b⟩ => ⟨.Forwards, .pair (a + d) (b + d)⟩
  | ⟨.Read, .pair s n⟩ => ⟨.Read, .pair s (n + d)⟩
  | ⟨.Write, .pair s n⟩ => ⟨.Write, .pair s (n + d)⟩
  | ⟨.Discard, .pair s n⟩ => ⟨.Discard, .pair s (n + d)⟩
  | ⟨.Write_Forward, .pair s n⟩ => ⟨.Write_Forward, .pair s (n + d)⟩
  | ⟨.Discard_Forward, .pair s n⟩ => ⟨.Discard_Forward, .pair s (n + d)⟩
  | op => op

/-- The minimum of f over the Python range(1, l) (the value of
min(list_mem) in hrevolve_aux; the range is nonempty whenever l ≥ 2). -/
def minOver (f : ℕ → Cost) (l : ℕ) : Cost :=
  ((pyRange 1 l).map f).foldr min ⊤

/-- Modelled from the spec: basic_functions.py (argmin) is not under src/.
The spec fixes the tie rule: arg-min is the smallest index attaining the
minimum.  Returns the smallest j in range(1, l) with f j minimal. -/
def argminOver (f : ℕ → Cost) (l : ℕ) : ℕ :=
  ((pyRange 1 l).find? (fun j => f j = minOver f l)).getD 1

/-- Bounds for argminOver: for l ≥ 2 the returned index lies in [1, l). -/
theorem argminOver_bounds (f : ℕ → Cost) (l : ℕ) (hl : 2 ≤ l) :
    1 ≤ argminOver f l ∧ argminOver f l < l := by
  unfold argminOver
  cases hfind : (pyRange 1 l).find? (fun j => f j = minOver f l) with
  | none => simpa using by omega
  | some j =>
    have hmem := List.mem_of_find?_eq_some hfind
    rw [pyRange, List.mem_range'] at hmem
    obtain ⟨i, hi, rfl⟩ := hmem
    simp only [Option.getD_some]
    omega

/-- The parameters threaded through the recursive sequence builders: the
architecture vectors, the forward step cost and the two cost tables
(read-only, as in the source where they are passed by reference). -/
structure HParams where
  cvect : ℕ → ℕ
  wvect : ℕ → ℚ
  rvect : ℕ → ℚ
  cfwd : ℚ
  hoptp : ℕ → ℕ → ℕ → Cost
  hopt : ℕ → ℕ → ℕ → Cost

/-- The list of candidate costs list_mem of hrevolve_aux at level k:
list_mem[j] = j*cfwd + hopt[k][l-j][cmem-1] + rvect[k] + hoptp[k][j-1][cmem]
for j in range(1, l). -/
def listMem (P : HParams) (k l cmem : ℕ) (j : ℕ) : Cost :=
  (((j : ℚ) * P.cfwd : ℚ) : Cost) + P.hopt k (l - j) (cmem - 1)
    + ((P.rvect k : ℚ) : Cost) + P.hoptp k (j - 1) cmem

/-- The fixed 8-operation schedule emitted by hrevolve_recurse for l = 1. -/
def l1Schedule : List RawOp :=
  [⟨.Write, .pair 0 0⟩, ⟨.Forward, .pair 0 1⟩, ⟨.Write_Forward, .pair 0 1⟩,
   ⟨.Backward, .int 1⟩, ⟨.Discard_Forward, .pair 0 1⟩, ⟨.Read, .pair 0 0⟩,
   ⟨.Backward, .int 0⟩, ⟨.Discard, .pair 0 0⟩]

/-- The l = 1 schedule of hrevolve_aux, reading back from level 0 or from
level K depending on the cost comparison wvect[0] + rvect[0] < rvect[K]. -/
def auxL1Schedule (P : HParams) (K : ℕ) : List RawOp :=
  (if P.wvect 0 + P.rvect 0 < P.rvect K then [(⟨.Write, .pair 0 0⟩ : RawOp)] else [])
    ++ [⟨.Forward, .pair 0 1⟩, ⟨.Write_Forward, .pair 0 1⟩,
        ⟨.Backward, .int 1⟩, ⟨.Discard_Forward, .pair 0 1⟩]
    ++ [if P.wvect 0 + P.rvect 0 < P.rvect K then (⟨.Read, .pair 0 0⟩ : RawOp)
        else ⟨.Read, .pair (K : ℤ) 0⟩]
    ++ [⟨.Backward, .int 0⟩, ⟨.Discard, .pair 0 0⟩]

/-- The linear-scan schedule of hrevolve_aux for K = 0, cmem = 1: for
index = l-1 down to 0, replay from the level-0 checkpoint and reverse one
step; the trailing Backward uses the leftover loop variable, which is 0. -/
def scanSchedule (l : ℕ) : List RawOp :=
  ((List.range l).reverse.flatMap (fun idx =>
    (if idx ≠ l - 1 then [(⟨.Read, .pair 0 0⟩ : RawOp)] else [])
      ++ [⟨.Forward, .pair 0 ((idx : ℤ) + 1)⟩, ⟨.Write_Forward, .pair 0 ((idx : ℤ) + 1)⟩,
          ⟨.Backward, .int ((idx : ℤ) + 1)⟩, ⟨.Discard_Forward, .pair 0 ((idx : ℤ) + 1)⟩]))
    ++ [⟨.Read, .pair 0 0⟩, ⟨.Backward, .int 0⟩, ⟨.Discard, .pair 0 0⟩]

mutual

/-- Embedding of hrevolve_recurse (hrevolve_sequence/hrevolve.py, lines
265-354), with the tables already computed (the callers in this
development always pass them, mirroring hrevolve). -/
def hrevolve_recurse (P : HParams) (l K cmem : ℕ) : Except Err (List RawOp) :=
  if hl0 : l = 0 then .ok [⟨.Backward, .int 0⟩]
  else if hmem : K = 0 ∧ cmem = 0 then .error .noMemory
  else if hl1 : l = 1 then .ok l1Schedule
  else if hK : K = 0 then
    match hrevolve_aux P l 0 cmem with
    | .error e => .error e
    | .ok s => .ok (⟨.Write, .pair 0 0⟩ :: s)
  else if ((P.wvect K : ℚ) : Cost) + P.hoptp K l cmem < P.hopt (K - 1) l (P.cvect (K - 1)) then
    match hrevolve_aux P l K cmem with
    | .error e => .error e
    | .ok s => .ok (⟨.Write, .pair (K : ℤ) 0⟩ :: s)
  else hrevolve_recurse P l (K - 1) (P.cvect (K - 1))
termination_by (l, K, 1)
decreasing_by
  all_goals simp_wf
  all_goals try subst hK
  all_goals first
    | exact Prod.Lex.left _ _ (by omega)
    | (apply Prod.Lex.right
       first
         | exact Prod.Lex.left _ _ (by omega)
         | (apply Prod.Lex.right
            omega))

/-- Embedding of hrevolve_aux (hrevolve_sequence/hrevolve.py, lines
98-226).  The K = 0, cmem ≥ 2 fallback branch raises TypeError in the
source (it passes cfwd positionally into the hoptp parameter while also
passing hoptp by keyword) and is embedded as that error. -/
def hrevolve_aux (P : HParams) (l K cmem : ℕ) : Except Err (List RawOp) :=
  if hc : cmem = 0 then .error .auxZeroMem
  else if hl0 : l = 0 then .ok [⟨.Backward, .int 0⟩]
  else if hl1 : l = 1 then .ok (auxL1Schedule P K)
  else if hsc : K = 0 ∧ cmem = 1 then .ok (scanSchedule l)
  else if hK : K = 0 then
    if minOver (listMem P 0 l cmem) l < P.hoptp 0 l 1 then
      have hj := argminOver_bounds (listMem P 0 l cmem) l (by omega)
      let jmin := argminOver (listMem P 0 l cmem) l
      match hrevolve_recurse P (l - jmin) 0 (cmem - 1) with
      | .error e => .error e
      | .ok s1 =>
        match hrevolve_aux P (jmin - 1) 0 cmem with
        | .error e => .error e
        | .ok s2 =>
          .ok (⟨.Forward, .pair 0 (jmin : ℤ)⟩ :: (s1.map (RawOp.shift jmin)
            ++ [⟨.Read, .pair 0 0⟩] ++ s2))
    else .error .typeError
  else
    if minOver (listMem P K l cmem) l < P.hopt (K - 1) l (P.cvect (K - 1)) then
      have hj := argminOver_bounds (listMem P K l cmem) l (by omega)
      let jmin := argminOver (listMem P K l cmem) l
      match hrevolve_recurse P (l - jmin) K (cmem - 1) with
      | .error e => .error e
      | .ok s1 =>
        match hrevolve_aux P (jmin - 1) K cmem with
        | .error e => .error e
        | .ok s2 =>
          .ok (⟨.Forward, .pair 0 (((jmin - 1 : ℕ) : ℤ))⟩ :: (s1.map (RawOp.shift jmin)
            ++ [⟨.Read, .pair (K : ℤ) 0⟩] ++ s2))
    else hrevolve_recurse P l (K - 1) (P.cvect (K - 1))
termination_by (l, K, 0)
decreasing_by
  all_goals simp_wf
  all_goals try subst hK
  all_goals first
    | exact Prod.Lex.left _ _ (by omega)
    | (apply Prod.Lex.right
       first
         | exact Prod.Lex.left _ _ (by omega)
         | (apply Prod.Lex.right
            omega))

end

/-- Table lookup as a function, as the recursive builders read the tables. -/
def tblFun (t : Tbl) : ℕ → ℕ → ℕ → Cost := fun k l m => get3 t k l m

/-- The builder parameters assembled by hrevolve from concrete architecture
lists and already-computed tables: vector reads become list lookups. -/
def mkHParams (cvect : List ℕ) (wvect rvect : List ℚ) (cfwd : ℚ)
    (tabs : Tbl × Tbl) : HParams :=
  { cvect := fun k => cvect.getD k 0,
    wvect := fun k => wvect.getD k 0,
    rvect := fun k => rvect.getD k 0,
    cfwd := cfwd,
    hoptp := tblFun tabs.1,
    hopt := tblFun tabs.2 }

/-- The tables of a successful get_hopt_table run (used to state concrete
facts about the recursive builder; the default is never reached in any
statement below). -/
def tablesOf (e : Except Err (Tbl × Tbl)) : Tbl × Tbl :=
  match e with
  | .ok q => q
  | .error _ => ([], [])

/-- Embedding of hrevolve (hrevolve_sequence/hrevolve.py, lines 229-262):
build the tables for l (propagating their errors) and recurse at the
topmost level with all of its slots (cvect[-1]).  The cost parameters cbwd
and cfwd are explicit here; the source reads them from its params dict
with defaults cbwd=2.0, cfwd=1.0 (Modelled from the spec: parameters.py
with the defaults dict is not under src/; spec section 6 lists the
recognized keys and defaults). -/
def hrevolve (l : ℕ) (cvect : List ℕ) (wvect rvect : List ℚ) (cbwd cfwd : ℚ) :
    Except Err (List RawOp) := do
  let tabs ← get_hopt_table l cvect wvect rvect cbwd cfwd
  hrevolve_recurse (mkHParams cvect wvect rvect cfwd tabs)
    l (cvect.length - 1) (cvect.getLast?.getD 0)

/-! ## The H-Revolve action adapter (checkpoint_schedules/hrevolve.py) -/

/-- Storage names used by the H-Revolve adapter: it translates the level
of an operation index through the dict {0: RAM, 1: disk}. -/
inductive HStorage where
  | RAM
  | disk
deriving DecidableEq, Repr

/-- Public actions yielded by HRevolveCheckpointSchedule.iter. -/
inductive HAction where
  | Clear (clear_ics clear_data : Bool)
  | Configure (store_ics store_data : Bool)
  | Forward (n0 n1 : ℤ)
  | Reverse (n1 n0 : ℤ)
  | Read (n : ℤ) (storage : HStorage) (cp_delete : Bool)
  | Write (n : ℤ) (storage : HStorage)
  | EndForward
  | EndReverse (exhausted : Bool)
deriving DecidableEq, Repr

/-- The result of the local action(i) parser inside iter: the action kind
with its data (n_0, n_1, storage).  Forwards is folded into forward with
n_1 already incremented, as in the source. -/
inductive ParsedOp where
  | forward (n0 n1 : ℤ)
  | backward (n0 : ℤ)
  | read (n0 : ℤ) (storage : HStorage)
  | write (n0 : ℤ) (storage : HStorage)
  | discard (n0 : ℤ) (storage : HStorage)
deriving DecidableEq, Repr

/-- Embedding of the level translation {0: "RAM", 1: "disk"}[storage]; any
other level raises KeyError. -/
def levelStorage (s : ℤ) : Except Err HStorage :=
  if s = 0 then .ok .RAM else if s = 1 then .ok .disk else .error .keyError

/-- Embedding of action(i) (hrevolve.py, lines 52-89).  A Forward operation
with a scalar index advances one step (n_1 = n_0 + 1); a Forward operation
carrying a pair index reaches n_1 = n_0 + 1 on a Python list and raises
TypeError; Forwards unpacks a pair, rejects n_1 ≤ n_0 and increments n_1;
Read, Write and Discard unpack (storage, n_0) pairs and translate the
level; Write_Forward and Discard_Forward fall to the unexpected-action
branch.  A Backward with a pair index parses (n_0 becomes the list), and
every later comparison of n_0 with an int state is unequal, so the step
inevitably raises the invalid-checkpointing-state error; it is embedded as
that error here. -/
def parseOp : RawOp → Except Err ParsedOp
  | ⟨.Forward, .int n0⟩ => .ok (.forward n0 (n0 + 1))
  | ⟨.Forward, .pair _ _⟩ => .error .typeError
  | ⟨.Forwards, .pair a b⟩ =>
    if b ≤ a then .error .invalidSchedule else .ok (.forward a (b + 1))
  | ⟨.Forwards, .int _⟩ => .error .typeError
  | ⟨.Backward, .int n0⟩ => .ok (.backward n0)
  | ⟨.Backward, .pair _ _⟩ => .error .invalidState
  | ⟨.Read, .pair s n0⟩ => do .ok (.read n0 (← levelStorage s))
  | ⟨.Read, .int _⟩ => .error .typeError
  | ⟨.Write, .pair s n0⟩ => do .ok (.write n0 (← levelStorage s))
  | ⟨.Write, .int _⟩ => .error .typeError
  | ⟨.Discard, .pair s n0⟩ => do .ok (.discard n0 (← levelStorage s))
  | ⟨.Discard, .int _⟩ => .error .typeError
  | ⟨.Write_Forward, _⟩ => .error .unexpectedAction
  | ⟨.Discard_Forward, _⟩ => .error .unexpectedAction

/-- The adapter state of iter: the schedule position state n, the reverse
counter r, the set of live snapshot steps, and the deferred checkpoint
write. -/
structure HState where
  n : ℤ
  r : ℕ
  snapshots : Finset ℤ
  deferred : Option (ℤ × HStorage)
deriving DecidableEq

/-- The initial adapter state (CheckpointSchedule.__init__: n = 0, r = 0;
Modelled from the spec: schedule.py is not under src/; spec section 3 gives
the initial engine state n = 0, r = 0). -/
def hInit : HState := ⟨0, 0, ∅, none⟩

/-- Embedding of write_deferred_cp: emits the pending Write and records the
step in snapshots. -/
def flushDeferred (st : HState) : List HAction × HState :=
  match st.deferred with
  | none => ([], st)
  | some (m, s) =>
    ([HAction.Write m s], { st with snapshots := insert m st.snapshots, deferred := none })

/-- One iteration of the main loop of iter (hrevolve.py, lines 104-176) on
operation i of the schedule.  The returned actions are those yielded by
the iteration; on error the Python generator raises (actions yielded
before the raise inside a single iteration are dropped here; no claim
depends on them). -/
def stepHOp (maxN : ℕ) (sched : List RawOp) (i : ℕ) (st : HState) :
    Except Err (List HAction × HState) := do
  match ← parseOp (sched.getD i ⟨.Backward, .int 0⟩) with
  | .forward n0 n1 =>
    if n0 ≠ st.n then .error .invalidState
    else
      .ok ([.Clear true true, .Configure (decide (n0 ∉ st.snapshots)) false,
            .Forward n0 n1],
        { st with n := n1 })
  | .backward n0 =>
    if n0 ≠ st.n then .error .invalidState
    else if n0 ≠ (maxN : ℤ) - st.r - 1 then .error .invalidState
    else
      let ws := flushDeferred st
      let base := ws.1 ++ [.Clear true true, .Configure false true,
        .Forward n0 (n0 + 1)]
      if n0 + 1 = (maxN : ℤ) then
        if st.r ≠ 0 then .error .invalidState
        else .ok (base ++ [.EndForward, .Reverse (n0 + 1) n0],
          { ws.2 with n := n0 + 1, r := st.r + 1 })
      else .ok (base ++ [.Reverse (n0 + 1) n0],
        { ws.2 with n := n0 + 1, r := st.r + 1 })
  | .read n0 storage =>
    if st.deferred ≠ none then .error .invalidState
    else do
      let cp_delete ←
        if n0 = (maxN : ℤ) - st.r - 1 then pure true
        else if i + 2 < sched.length then do
          match ← parseOp (sched.getD (i + 2) ⟨.Backward, .int 0⟩) with
          | .discard dn0 ds =>
            if dn0 ≠ n0 ∨ ds ≠ storage then Except.error Err.invalidSchedule
            else pure true
          | _ => pure false
        else Except.error Err.unboundLocal
      if cp_delete then
        if n0 ∈ st.snapshots then
          .ok ([.Clear true true, .Read n0 storage true],
            { st with snapshots := st.snapshots.erase n0, n := n0 })
        else .error .keyError
      else .ok ([.Clear true true, .Read n0 storage false], { st with n := n0 })
  | .write n0 storage =>
    if n0 ≠ st.n then .error .invalidState
    else
      let ws := flushDeferred st
      let st2 := { ws.2 with deferred := some (n0, storage) }
      if 0 < i then do
        match ← parseOp (sched.getD (i - 1) ⟨.Backward, .int 0⟩) with
        | .read rn0 _ =>
          if rn0 ≠ n0 then .error .invalidSchedule
          else
            let ws2 := flushDeferred st2
            .ok (ws.1 ++ ws2.1, ws2.2)
        | _ => .ok (ws.1, st2)
      else .ok (ws.1, st2)
  | .discard n0 storage =>
    if i < 2 then .error .invalidSchedule
    else do
      match ← parseOp (sched.getD (i - 2) ⟨.Backward, .int 0⟩) with
      | .read rn0 rs =>
        if rn0 ≠ n0 ∨ rs ≠ storage then .error .invalidSchedule
        else .ok ([], st)
      | _ => .error .invalidSchedule

/-- Embedding of the whole of iter: fold the step over all operation
positions, then require the snapshot set to be empty and emit the final
Clear and EndReverse(True).  The returned flag is the exhausted flag. -/
def runH (maxN : ℕ) (sched : List RawOp) : Except Err (List HAction × Bool) := do
  let res ← (List.range sched.length).foldlM
    (fun (acc : List HAction × HState) i => do
      let (acts, st) ← stepHOp maxN sched i acc.2
      pure (acc.1 ++ acts, st))
    (([], hInit) : List HAction × HState)
  if res.2.snapshots.card ≠ 0 then .error .invalidState
  else .ok (res.1 ++ [.Clear true true, .EndReverse true], true)

/-- Embedding of the HRevolveCheckpointSchedule pipeline: the constructor
builds the operation sequence with cvect = (snapshots_in_ram,
snapshots_on_disk) and the default cost vectors wvect = rvect = (0.0, 0.1),
cbwd = 2, cfwd = 1, and iter() translates it into the action stream. -/
def hrevolveSchedule (maxN ram disk : ℕ) : Except Err (List HAction × Bool) := do
  runH maxN (← hrevolve maxN [ram, disk] [0, 1/10] [0, 1/10] 2 1)


/-! ## The two-level binomial schedule (twolevel_binomial.py) -/

/-- Storage types of the public schedule API (schedule.py StorageType;
Modelled from the spec: schedule.py is not under src/; spec section 3
lists the four kinds). -/
inductive StorageType where
  | RAM
  | DISK
  | FWD_RESTART
  | ADJ_DEPS
deriving DecidableEq, Repr

/-- Actions yielded by TwoLevelCheckpointSchedule._iterator. -/
inductive TAction where
  | Forward (n0 n1 : ℕ) (write_ics write_adj_deps : Bool) (storage : StorageType)
  | Reverse (n1 n0 : ℕ) (clear_adj_deps : Bool)
  | Copy (n : ℕ) (sfrom sto : StorageType)
  | Move (n : ℕ) (sfrom sto : StorageType)
  | EndForward
  | EndReverse (exhausted : Bool)
deriving DecidableEq, Repr

/-- Embedding of TwoLevelCheckpointSchedule.uses_storage_type
(twolevel_binomial.py, line 167): it tests equality with the binomial
storage only. -/
def uses_storage_type (binStorage storage_type : StorageType) : Bool :=
  storage_type == binStorage

/-- Embedding of the is_exhausted property of TwoLevelCheckpointSchedule:
constantly False. -/
def twoLevelIsExhausted : Bool := false

/-- One iteration of the forward phase (twolevel_binomial.py, lines 64-71):
advance period steps and store a forward restart checkpoint to disk. -/
def tlForwardStep (n0 period : ℕ) : TAction :=
  .Forward n0 (n0 + period) true false .DISK

/-- The binomial sub-advance loop (twolevel_binomial.py, lines 114-128):
while n < max_n - r - 1, advance by n_advance(max_n - r - n,
snapshots + 1 - len(stack)) steps and push a snapshot (guarded by the
invalid-checkpointing-state check).  The function is parametrized by the
n_advance function adv (Modelled from the spec: utils.py with n_advance is
not under src/; spec section 4.C describes it), takes the stack with its
top at the head, and returns the yielded actions paired with the stack
length at the yield, the final n and the final stack.  The n_advance = 0
case models the assert n1 > n0; fuel exhaustion and all raise statements
return none (actions yielded before a raise in the same pass are
dropped). -/
def tlSubAdvance (maxN snaps : ℕ) (binStorage : StorageType)
    (adv : ℕ → ℕ → ℕ) (r : ℕ) :
    List ℕ → ℕ → ℕ → Option (List (TAction × ℕ) × ℕ × List ℕ)
  | _, _, 0 => none
  | stack, n, fuel + 1 =>
    if n < maxN - r - 1 then
      let nsnap := snaps + 1 - stack.length
      let k := adv (maxN - r - n) nsnap
      if k = 0 then none
      else
        let n1 := n + k
        if snaps + 1 ≤ stack.length then none
        else
          match tlSubAdvance maxN snaps binStorage adv r (n :: stack) n1 fuel with
          | none => none
          | some (tr, n2, st2) =>
            some ((.Forward n n1 true false binStorage, stack.length) :: tr, n2, st2)
    else some ([], n, stack)

/-- The reverse stack loop for one period block (twolevel_binomial.py,
lines 86-137): while r < max_n - n0s, restore from the top snapshot (a
Copy from disk for the periodic checkpoint at n0s, otherwise a Move or
Copy from the binomial storage), advance when the snapshot is not the next
reverse target, and reverse one step.  The live position n is always
assigned from the stack top before use, so it is not part of the state
threaded here. -/
def tlInner (maxN snaps : ℕ) (binStorage : StorageType) (adv : ℕ → ℕ → ℕ)
    (n0s : ℕ) :
    List ℕ → ℕ → ℕ → Option (List (TAction × ℕ) × ℕ × List ℕ)
  | _, _, 0 => none
  | stack, r, fuel + 1 =>
    if r < maxN - n0s then
      match stack with
      | [] => none
      | cp_n :: rest =>
        if cp_n = maxN - r - 1 then
          let act1 : TAction :=
            if cp_n = n0s then .Copy cp_n .DISK .FWD_RESTART
            else .Move cp_n binStorage .FWD_RESTART
          match tlInner maxN snaps binStorage adv n0s rest (r + 1) fuel with
          | none => none
          | some (tr, r2, st2) =>
            some ((act1, rest.length)
              :: (.Forward cp_n (cp_n + 1) false true .ADJ_DEPS, rest.length)
              :: (.Reverse (cp_n + 1) cp_n true, rest.length) :: tr, r2, st2)
        else
          let act1 : TAction :=
            if cp_n = n0s then .Copy cp_n .DISK .FWD_RESTART
            else .Copy cp_n binStorage .FWD_RESTART
          let nsnap := snaps + 1 - stack.length + 1
          let k := adv (maxN - r - cp_n) nsnap
          if k = 0 then none
          else
            match tlSubAdvance maxN snaps binStorage adv r stack (cp_n + k) fuel with
            | none => none
            | some (tr2, n2, st2) =>
              if n2 ≠ maxN - r - 1 then none
              else
                match tlInner maxN snaps binStorage adv n0s st2 (r + 1) fuel with
                | none => none
                | some (tr, r2, st3) =>
                  some ((act1, stack.length)
                    :: (.Forward cp_n (cp_n + k) false false .FWD_RESTART, stack.length)
                    :: tr2
                    ++ (.Forward n2 (n2 + 1) false true .ADJ_DEPS, st2.length)
                    :: (.Reverse (n2 + 1) n2 true, st2.length) :: tr, r2, st3)
    else some ([], r, stack)

/-- One period block of the reverse phase (twolevel_binomial.py, lines
77-142): locate the block of the next reverse target, check the phase
invariant r = max_n - n1s, run the stack loop seeded with the periodic
checkpoint n0s, and check r = max_n - n0s and that the stack is empty. -/
def tlBlock (maxN period snaps : ℕ) (binStorage : StorageType)
    (adv : ℕ → ℕ → ℕ) (r fuel : ℕ) :
    Option (List (TAction × ℕ) × ℕ × List ℕ) :=
  let n := maxN - r - 1
  let n0s := n / period * period
  let n1s := min (n0s + period) maxN
  if r ≠ maxN - n1s then none
  else
    match tlInner maxN snaps binStorage adv n0s [n0s] r fuel with
    | none => none
    | some (tr, r2, st2) =>
      if r2 ≠ maxN - n0s then none
      else if st2 ≠ [] then none
      else some (tr, r2, st2)

/-- The outer reverse loop: period blocks until r reaches max_n. -/
def tlReverseLoop (maxN period snaps : ℕ) (binStorage : StorageType)
    (adv : ℕ → ℕ → ℕ) : ℕ → ℕ → Option (List (TAction × ℕ) × ℕ)
  | _, 0 => none
  | r, fuel + 1 =>
    if r < maxN then
      match tlBlock maxN period snaps binStorage adv r fuel with
      | none => none
      | some (tr, r2, _) =>
        match tlReverseLoop maxN period snaps binStorage adv r2 fuel with
        | none => none
        | some (tr2, r3) => some (tr ++ tr2, r3)
    else some ([], r)

/-- One full reverse pass, the body of the while True loop of _iterator
(twolevel_binomial.py, lines 75-149): the reversal from r = 0 to
r = max_n, the final consistency check, the reset r = 0 and the
EndReverse(False).  Returns the yielded actions paired with the live
snapshot stack size at each yield, and the final r (which the source
resets to 0). -/
def tlOnePass (maxN period snaps : ℕ) (binStorage : StorageType)
    (adv : ℕ → ℕ → ℕ) (fuel : ℕ) : Option (List (TAction × ℕ) × ℕ) :=
  match tlReverseLoop maxN period snaps binStorage adv 0 fuel with
  | none => none
  | some (tr, r2) =>
    if r2 ≠ maxN then none
    else some (tr ++ [(.EndReverse false, 0)], 0)

/-- Concatenation of k reverse passes: after EndReverse(False) the while
True loop runs the identical pass again (the pass state is r = 0 and the
parameters; n is reassigned before use). -/
def tlPasses (maxN period snaps : ℕ) (binStorage : StorageType)
    (adv : ℕ → ℕ → ℕ) (fuel : ℕ) : ℕ → Option (List (TAction × ℕ))
  | 0 => some []
  | k + 1 =>
    match tlOnePass maxN period snaps binStorage adv fuel with
    | none => none
    | some (tr, _) =>
      match tlPasses maxN period snaps binStorage adv fuel k with
      | none => none
      | some rest => some (tr ++ rest)

/-! ## Theorems: table cells at l = lmax stay infinite -/

theorem getD_replicate_eq {α : Type} (n i : ℕ) (a d : α) :
    (List.replicate n a).getD i d = if i < n then a else d := by
  rw [List.getD_eq_getElem?_getD, List.getElem?_replicate]
  split <;> rfl

theorem getD_set_ne {α : Type} (xs : List α) (i j : ℕ) (a d : α) (h : i ≠ j) :
    (xs.set i a).getD j d = xs.getD j d := by
  rw [List.getD_eq_getElem?_getD, List.getElem?_set_ne h, ← List.getD_eq_getElem?_getD]

theorem getD_set_self {α : Type} (xs : List α) (i : ℕ) (a d : α) (h : i < xs.length) :
    (xs.set i a).getD i d = a := by
  rw [List.getD_eq_getElem?_getD, List.getElem?_set_self h]
  rfl

theorem get3_initTbl (lmax : ℕ) (cvect : List ℕ) :
    ∀ k l m, get3 (initTbl lmax cvect) k l m = ⊤ := by
  induction cvect with
  | nil => intro k l m; rfl
  | cons c cs ih =>
    intro k l m
    cases k with
    | zero =>
      show ((List.replicate (lmax + 1) (List.replicate (c + 1) (⊤ : Cost))).getD l []).getD m ⊤ = ⊤
      rw [getD_replicate_eq]
      split
      · rw [getD_replicate_eq]
        split <;> rfl
      · rfl
    | succ k => exact ih k l m

theorem get3_set3_of_row_ne (t : Tbl) (k1 l1 m1 : ℕ) (v : Cost) (k l m : ℕ)
    (h : l1 ≠ l) :
    get3 (set3 t k1 l1 m1 v) k l m = get3 t k l m := by
  unfold get3 set3
  by_cases hk : k1 = k
  · subst hk
    rcases lt_or_le k1 t.length with hlen | hlen
    · rw [getD_set_self _ _ _ _ hlen, getD_set_ne _ _ _ _ _ h]
    · rw [List.set_eq_of_length_le hlen]
  · rw [getD_set_ne _ _ _ _ _ hk]

theorem foldl_preserves {α β : Type} (f : β → α → β) (xs : List α) (init : β)
    (P : β → Prop) (hi : P init) (h : ∀ b a, a ∈ xs → P b → P (f b a)) :
    P (xs.foldl f init) := by
  induction xs generalizing init with
  | nil => exact hi
  | cons x xs ih =>
    exact ih (f init x) (h init x (by simp) hi)
      (fun b a ha hb => h b a (List.mem_cons_of_mem _ ha) hb)

@[simp] theorem ebind_ok {α β : Type} (a : α) (f : α → Except Err β) :
    (do let y ← Except.ok a; f y) = f a := rfl

@[simp] theorem ebind_err {α β : Type} (e : Err) (f : α → Except Err β) :
    (do let y ← (Except.error e : Except Err α); f y) = .error e := rfl

@[simp] theorem epure_ok {α : Type} (a : α) : (pure a : Except Err α) = .ok a := rfl

theorem ebind_ok_inv {α β : Type} {x : Except Err α} {f : α → Except Err β} {r : β}
    (h : (do let y ← x; f y) = .ok r) : ∃ a, x = .ok a ∧ f a = .ok r := by
  cases x with
  | error e => exact Except.noConfusion h
  | ok a => exact ⟨a, rfl, h⟩

theorem foldlM_preserves {α β : Type} (f : β → α → Except Err β) (xs : List α)
    (P : β → Prop) :
    ∀ init, P init → (∀ b a, a ∈ xs → P b → ∀ b2, f b a = .ok b2 → P b2) →
    ∀ r, xs.foldlM f init = .ok r → P r := by
  induction xs with
  | nil =>
    intro init hi _ r hr
    rw [List.foldlM_nil] at hr
    cases hr
    exact hi
  | cons x xs ih =>
    intro init hi h r hr
    rw [List.foldlM_cons] at hr
    cases hfx : f init x with
    | error e =>
      rw [hfx] at hr
      exact Except.noConfusion hr
    | ok b =>
      rw [hfx] at hr
      simp only [ebind_ok] at hr
      exact ih b (h init x (by simp) hi b hfx)
        (fun b2 a ha => h b2 a (List.mem_cons_of_mem _ ha)) r hr

theorem set3E_ok (t : Tbl) (k l m : ℕ) (v : Cost) (t2 : Tbl)
    (h : set3E t k l m v = .ok t2) : t2 = set3 t k l m v := by
  unfold set3E at h
  split at h
  · injection h with h
    exact h.symm
  · exact Except.noConfusion h

theorem stepPair_ok (q : Tbl × Tbl) (b2 : Tbl × Tbl) (k1 l1 m1 : ℕ) (v1 : Cost)
    (k2 l2 m2 : ℕ) (v2 : Cost)
    (h : (do
        let t1 ← set3E q.1 k1 l1 m1 v1
        let t2 ← set3E q.2 k2 l2 m2 v2
        Except.ok ((t1, t2) : Tbl × Tbl)) = .ok b2) :
    b2 = (set3 q.1 k1 l1 m1 v1, set3 q.2 k2 l2 m2 v2) := by
  cases h1 : set3E q.1 k1 l1 m1 v1 with
  | error e =>
    rw [h1] at h
    exact Except.noConfusion h
  | ok t1 =>
    rw [h1] at h
    simp only [ebind_ok] at h
    cases h2 : set3E q.2 k2 l2 m2 v2 with
    | error e =>
      rw [h2] at h
      exact Except.noConfusion h
    | ok t2 =>
      rw [h2] at h
      simp only [ebind_ok] at h
      injection h with h
      rw [← h, set3E_ok _ _ _ _ _ _ h1, set3E_ok _ _ _ _ _ _ h2]

theorem stepSnd_ok (q : Tbl × Tbl) (b2 : Tbl × Tbl) (k1 l1 m1 : ℕ) (v1 : Cost)
    (h : (do
        let t2 ← set3E q.2 k1 l1 m1 v1
        Except.ok ((q.1, t2) : Tbl × Tbl)) = .ok b2) :
    b2 = (q.1, set3 q.2 k1 l1 m1 v1) := by
  cases h1 : set3E q.2 k1 l1 m1 v1 with
  | error e =>
    rw [h1] at h
    exact Except.noConfusion h
  | ok t2 =>
    rw [h1] at h
    simp only [ebind_ok] at h
    injection h with h
    rw [← h, set3E_ok _ _ _ _ _ _ h1]

theorem hopt_table_top_at_lmax (lmax : ℕ) (hl : 2 ≤ lmax) (cvect : List ℕ)
    (wvect rvect : List ℚ) (cbwd cfwd : ℚ) (q : Tbl × Tbl)
    (hq : get_hopt_table lmax cvect wvect rvect cbwd cfwd = .ok q) (k m : ℕ) :
    get3 q.1 k lmax m = ⊤ ∧ get3 q.2 k lmax m = ⊤ := by
  have h0 : (0 : ℕ) ≠ lmax := by omega
  have h1 : (1 : ℕ) ≠ lmax := by omega
  have hlt : ∀ l1 a b, l1 ∈ pyRange a b → b ≤ lmax → l1 ≠ lmax := by
    intro l1 a b hmem hb
    rw [pyRange, List.mem_range'] at hmem
    omega
  set P : Tbl × Tbl → Prop :=
    fun p => get3 p.1 k lmax m = ⊤ ∧ get3 p.2 k lmax m = ⊤ with hP
  have hpair : ∀ (p b2 : Tbl × Tbl) (k1 l1 m1 : ℕ) (v1 : Cost)
      (k2 l2 m2 : ℕ) (v2 : Cost), l1 ≠ lmax → l2 ≠ lmax →
      b2 = (set3 p.1 k1 l1 m1 v1, set3 p.2 k2 l2 m2 v2) → P p → P b2 := by
    intro p b2 k1 l1 m1 v1 k2 l2 m2 v2 hne1 hne2 hb2 hp
    subst hb2
    exact ⟨by rw [get3_set3_of_row_ne _ _ _ _ _ _ _ _ hne1]; exact hp.1,
           by rw [get3_set3_of_row_ne _ _ _ _ _ _ _ _ hne2]; exact hp.2⟩
  unfold get_hopt_table at hq
  rw [if_pos] at hq
  rotate_left
  · by_contra hassert
    rw [if_neg hassert] at hq
    exact Except.noConfusion hq
  obtain ⟨pb, hbord, hq⟩ := ebind_ok_inv hq
  have hPb : P pb := by
    apply foldlM_preserves _ _ P _
      ⟨get3_initTbl _ _ _ _ _, get3_initTbl _ _ _ _ _⟩ _ pb hbord
    intro b a ha hb b2 hb2
    simp only [] at hb2
    obtain ⟨b1, hin1, hb2⟩ := ebind_ok_inv hb2
    have hPb1 : P b1 := by
      apply foldlM_preserves _ _ P _ hb _ b1 hin1
      intro c a2 ha2 hc c2 hc2
      exact hpair c c2 a 0 a2 _ a 0 a2 _ h0 h0 (stepPair_ok _ _ _ _ _ _ _ _ _ _ hc2) hc
    apply foldlM_preserves _ _ P _ hPb1 _ b2 hb2
    intro c a2 ha2 hc c2 hc2
    simp only [] at hc2
    by_cases hsk : a2 = 0 ∧ a = 0
    · rw [if_pos hsk] at hc2
      cases hc2
      exact hc
    · rw [if_neg hsk] at hc2
      exact hpair c c2 a 1 a2 _ a 1 a2 _ h1 h1 (stepPair_ok _ _ _ _ _ _ _ _ _ _ hc2) hc
  cases cvect with
  | nil =>
    simp only [ebind_err] at hq
    exact Except.noConfusion hq
  | cons mmax0 crest =>
    simp only [ebind_ok] at hq
    obtain ⟨p0, hp0, hq⟩ := ebind_ok_inv hq
    have hPp0 : P p0 := by
      apply foldlM_preserves _ _ P _ hPb _ p0 hp0
      intro b a ha hb b2 hb2
      have hne := hlt a 2 lmax ha le_rfl
      exact hpair b b2 0 a 1 _ 0 a 1 _ hne hne (stepPair_ok _ _ _ _ _ _ _ _ _ _ hb2) hb
    obtain ⟨p1, hp1, hq⟩ := ebind_ok_inv hq
    have hPp1 : P p1 := by
      apply foldlM_preserves _ _ P _ hPp0 _ p1 hp1
      intro b a ha hb b2 hb2
      apply foldlM_preserves _ _ P _ hb _ b2 hb2
      intro c a2 ha2 hc c2 hc2
      have hne := hlt a2 2 lmax ha2 le_rfl
      exact hpair c c2 0 a2 a _ 0 a2 a _ hne hne (stepPair_ok _ _ _ _ _ _ _ _ _ _ hc2) hc
    apply foldlM_preserves _ _ P _ hPp1 _ q hq
    intro b a ha hb b2 hb2
    simp only [] at hb2
    obtain ⟨b1, hin1, hb2⟩ := ebind_ok_inv hb2
    have hPb1 : P b1 := by
      apply foldlM_preserves _ _ P _ hb _ b1 hin1
      intro c a2 ha2 hc c2 hc2
      have hne := hlt a2 2 lmax ha2 le_rfl
      have hc2h := stepSnd_ok _ _ _ _ _ _ hc2
      subst hc2h
      exact ⟨hc.1, by rw [get3_set3_of_row_ne _ _ _ _ _ _ _ _ hne]; exact hc.2⟩
    apply foldlM_preserves _ _ P _ hPb1 _ b2 hb2
    intro c a2 ha2 hc c2 hc2
    apply foldlM_preserves _ _ P _ hc _ c2 hc2
    intro d a3 ha3 hd d2 hd2
    have hne := hlt a3 1 lmax ha3 le_rfl
    exact hpair d d2 a a3 a2 _ a a3 a2 _ hne hne (stepPair_ok _ _ _ _ _ _ _ _ _ _ hd2) hd

/-! ## Theorems: the action adapter -/

theorem stepHOp_write00 (maxN : ℕ) (sched : List RawOp)
    (h : sched.getD 0 ⟨.Backward, .int 0⟩ = ⟨.Write, .pair 0 0⟩) :
    stepHOp maxN sched 0 hInit = .ok ([], { hInit with deferred := some (0, .RAM) }) := by
  unfold stepHOp
  rw [h]
  rfl

theorem stepHOp_forwardPair (maxN : ℕ) (sched : List RawOp) (i : ℕ) (st : HState)
    (a b : ℤ) (h : sched.getD i ⟨.Backward, .int 0⟩ = ⟨.Forward, .pair a b⟩) :
    stepHOp maxN sched i st = .error .typeError := by
  unfold stepHOp
  rw [h]
  rfl

theorem runH_error_at_1 (maxN : ℕ) (sched : List RawOp) (hlen : 2 ≤ sched.length)
    (acts : List HAction) (st1 : HState) (e : Err)
    (h0 : stepHOp maxN sched 0 hInit = .ok (acts, st1))
    (h1 : stepHOp maxN sched 1 st1 = .error e) :
    runH maxN sched = .error e := by
  unfold runH
  obtain ⟨n, hn⟩ : ∃ n, sched.length = n + 2 := ⟨sched.length - 2, by omega⟩
  rw [hn]
  rw [List.range_eq_range']
  rw [show List.range' 0 (n + 2) = 0 :: 1 :: List.range' 2 n from rfl]
  simp only [List.foldlM_cons, h0, ebind_ok, epure_ok, h1, ebind_err]

theorem hrevolve_pair_eq (maxN ram disk : ℕ) (tabs : Tbl × Tbl)
    (ht : get_hopt_table maxN [ram, disk] [0, 1/10] [0, 1/10] 2 1 = .ok tabs) :
    hrevolve maxN [ram, disk] [0, 1/10] [0, 1/10] 2 1 =
      hrevolve_recurse (mkHParams [ram, disk] [0, 1/10] [0, 1/10] 1 tabs)
        maxN 1 disk := by
  unfold hrevolve
  rw [ht]
  simp only [ebind_ok]
  rfl

theorem hrevolve_table_error (maxN ram disk : ℕ) (e : Err)
    (ht : get_hopt_table maxN [ram, disk] [0, 1/10] [0, 1/10] 2 1 = .error e) :
    hrevolve maxN [ram, disk] [0, 1/10] [0, 1/10] 2 1 = .error e := by
  unfold hrevolve
  rw [ht]
  rfl

theorem pipeline_of_builder_error (maxN ram disk : ℕ) (e : Err)
    (hb : hrevolve maxN [ram, disk] [0, 1/10] [0, 1/10] 2 1 = .error e) :
    hrevolveSchedule maxN ram disk = .error e := by
  unfold hrevolveSchedule
  rw [hb]
  rfl

theorem pipeline_of_builder_ok (maxN ram disk : ℕ) (s : List RawOp)
    (hb : hrevolve maxN [ram, disk] [0, 1/10] [0, 1/10] 2 1 = .ok s) :
    hrevolveSchedule maxN ram disk = runH maxN s := by
  unfold hrevolveSchedule
  rw [hb]
  rfl


/-- Claim C6.  The Backward branch of the adapter: both position checks are
required (invalid-checkpointing-state error otherwise); on success the step
flushes the deferred checkpoint write, emits Clear(true,true),
Configure(false,true), Forward(n0, n0+1), sets n to n0+1, emits EndForward
exactly when n0+1 = max_n and r = 0, increments r and emits
Reverse(n0+1, n0). -/
theorem C6_backward_mapping (maxN : ℕ) (sched : List RawOp) (i : ℕ) (st : HState) (n0 : ℤ)
    (h : sched.getD i ⟨.Backward, .int 0⟩ = ⟨.Backward, .int n0⟩) :
    (n0 = st.n ∧ n0 = (maxN : ℤ) - st.r - 1 →
      stepHOp maxN sched i st =
        .ok ((flushDeferred st).1 ++ [.Clear true true, .Configure false true,
              .Forward n0 (n0 + 1)]
            ++ (if n0 + 1 = (maxN : ℤ) then [HAction.EndForward] else [])
            ++ [.Reverse (n0 + 1) n0],
          { (flushDeferred st).2 with n := n0 + 1, r := st.r + 1 }) ∧
      (HAction.EndForward ∈ ((flushDeferred st).1
            ++ [HAction.Clear true true, .Configure false true, .Forward n0 (n0 + 1)]
            ++ (if n0 + 1 = (maxN : ℤ) then [HAction.EndForward] else [])
            ++ [.Reverse (n0 + 1) n0]) ↔ n0 + 1 = (maxN : ℤ) ∧ st.r = 0)) ∧
    (¬(n0 = st.n ∧ n0 = (maxN : ℤ) - st.r - 1) →
      stepHOp maxN sched i st = .error .invalidState) := by
  constructor
  · rintro ⟨h1, h2⟩
    constructor
    · unfold stepHOp
      rw [h]
      show Except.bind _ _ = _
      simp only [parseOp, Except.bind]
      rw [if_neg (by simp [h1]), if_neg (by simp [h2])]
      by_cases hend : n0 + 1 = (maxN : ℤ)
      · have hr : st.r = 0 := by omega
        rw [if_pos hend, if_neg (by simp [hr]), if_pos hend]
        simp
      · rw [if_neg hend, if_neg hend]
        simp
    · have hfl : HAction.EndForward ∉ (flushDeferred st).1 := by
        unfold flushDeferred
        cases st.deferred with
        | none => simp
        | some p => simp
      constructor
      · intro hmem
        simp only [List.mem_append] at hmem
        have : n0 + 1 = (maxN : ℤ) := by
          rcases hmem with ((h3 | h3) | h3) | h3
          · exact absurd h3 hfl
          · simp at h3
          · by_contra hne
            rw [if_neg hne] at h3
            simp at h3
          · simp at h3
        exact ⟨this, by omega⟩
      · rintro ⟨hend, hr⟩
        simp [if_pos hend]
  · intro hne
    unfold stepHOp
    rw [h]
    show Except.bind _ _ = _
    simp only [parseOp, Except.bind]
    by_cases h1 : n0 = st.n
    · rw [if_neg (by simp [h1])]
      rw [if_pos (by simp; intro; exact absurd ⟨h1, by omega⟩ hne)]
    · rw [if_pos (by simp [h1])]

/-- Witness for C6 at max_n = 1, the schedule [Backward(0)] and the initial
state. -/
theorem C6_witness :
    stepHOp 1 [⟨.Backward, .int 0⟩] 0 hInit =
      .ok ((flushDeferred hInit).1 ++ [.Clear true true, .Configure false true,
            .Forward 0 (0 + 1)]
          ++ (if (0 : ℤ) + 1 = ((1 : ℕ) : ℤ) then [HAction.EndForward] else [])
          ++ [.Reverse (0 + 1) 0],
        { (flushDeferred hInit).2 with n := 0 + 1, r := hInit.r + 1 }) :=
  ((C6_backward_mapping 1 [⟨.Backward, .int 0⟩] 0 hInit 0 rfl).1 (by decide)).1

/-- Claim C7, amended.  The Read branch of the adapter with no pending
deferred write: cp_delete is true when n0 = max_n - r - 1 or when the
operation two positions later is a Discard matching step and level
(removing n0 from the snapshot set, a key error if absent); cp_delete is
false when neither holds and the operation two positions later exists and
parses as a non-Discard; a Discard two later with mismatched step or level
is an invalid-schedule error; and when neither deletion test fires within
the last two positions of the schedule, the adapter fails with an unbound
local variable instead of emitting Read with cp_delete false. -/
theorem C7_read_mapping_amended (maxN : ℕ) (sched : List RawOp) (i : ℕ) (st : HState)
    (s n0 : ℤ) (storage : HStorage)
    (h : sched.getD i ⟨.Backward, .int 0⟩ = ⟨.Read, .pair s n0⟩)
    (hs : levelStorage s = .ok storage)
    (hdef : st.deferred = none) :
    (n0 = (maxN : ℤ) - st.r - 1 → n0 ∈ st.snapshots →
      stepHOp maxN sched i st =
        .ok ([.Clear true true, .Read n0 storage true],
          { st with snapshots := st.snapshots.erase n0, n := n0 })) ∧
    (n0 ≠ (maxN : ℤ) - st.r - 1 → i + 2 < sched.length →
      parseOp (sched.getD (i + 2) ⟨.Backward, .int 0⟩) = .ok (.discard n0 storage) →
      n0 ∈ st.snapshots →
      stepHOp maxN sched i st =
        .ok ([.Clear true true, .Read n0 storage true],
          { st with snapshots := st.snapshots.erase n0, n := n0 })) ∧
    (n0 ≠ (maxN : ℤ) - st.r - 1 → i + 2 < sched.length →
      ∀ q, parseOp (sched.getD (i + 2) ⟨.Backward, .int 0⟩) = .ok q →
      (∀ dn ds, q ≠ .discard dn ds) →
      stepHOp maxN sched i st =
        .ok ([.Clear true true, .Read n0 storage false], { st with n := n0 })) ∧
    (n0 ≠ (maxN : ℤ) - st.r - 1 → i + 2 < sched.length →
      ∀ dn ds, parseOp (sched.getD (i + 2) ⟨.Backward, .int 0⟩) = .ok (.discard dn ds) →
      dn ≠ n0 ∨ ds ≠ storage →
      stepHOp maxN sched i st = .error .invalidSchedule) ∧
    (n0 ≠ (maxN : ℤ) - st.r - 1 → ¬(i + 2 < sched.length) →
      stepHOp maxN sched i st = .error .unboundLocal) := by
  have hbase : stepHOp maxN sched i st = (do
    let cp_delete ←
      if n0 = (maxN : ℤ) - st.r - 1 then pure true
      else if i + 2 < sched.length then do
        match ← parseOp (sched.getD (i + 2) ⟨.Backward, .int 0⟩) with
        | .discard dn0 ds =>
          if dn0 ≠ n0 ∨ ds ≠ storage then Except.error Err.invalidSchedule
          else pure true
        | _ => pure false
      else Except.error Err.unboundLocal
    if cp_delete then
      if n0 ∈ st.snapshots then
        Except.ok ([HAction.Clear true true, .Read n0 storage true],
          { st with snapshots := st.snapshots.erase n0, n := n0 })
      else Except.error Err.keyError
    else Except.ok ([HAction.Clear true true, .Read n0 storage false], { st with n := n0 })) := by
    unfold stepHOp
    rw [h]
    simp only [parseOp, hs, ebind_ok, ebind_err]
    rw [if_neg (by simp [hdef])]
  refine ⟨?_, ?_, ?_, ?_, ?_⟩
  · intro h1 h2
    rw [hbase, if_pos h1]
    simp only [epure_ok, ebind_ok, if_true]
    rw [if_pos h2]
  · intro h1 hlen hdisc h2
    rw [hbase, if_neg h1, if_pos hlen]
    rw [hdisc]
    simp only [epure_ok, ebind_ok, if_true]
    rw [if_neg (by simp), if_pos h2]
  · intro h1 hlen q hq hnotd
    rw [hbase, if_neg h1, if_pos hlen]
    rw [hq]
    simp only [ebind_ok]
    match q, hnotd with
    | .forward a b, _ => simp
    | .backward a, _ => simp
    | .read a b, _ => simp
    | .write a b, _ => simp
    | .discard a b, hnd => exact absurd rfl (hnd a b)
  · intro h1 hlen dn ds hdisc hne
    rw [hbase, if_neg h1, if_pos hlen]
    rw [hdisc]
    simp only [ebind_ok]
    rw [if_pos (by tauto)]
    rfl
  · intro h1 hlen
    rw [hbase, if_neg h1, if_neg hlen]
    rfl

/-- Claim C7 (counterexample).  A Read at the last position of the
schedule, not about to be reversed, makes the adapter fail (the source
reads the unassigned local cp_delete), where the claim requires the total
mapping to emit Read with cp_delete = false. -/
theorem C7_counterexample :
    stepHOp 5 [⟨.Read, .pair 0 0⟩] 0 hInit = .error .unboundLocal ∧
    (0 : ℤ) ≠ (5 : ℤ) - 0 - 1 := by
  constructor
  · rfl
  · decide

/-- Witness for C7 (amended), exercising the cp_delete = false case: a
Read two positions before a Backward operation. -/
theorem C7_witness :
    stepHOp 9 [⟨.Read, .pair 0 5⟩, ⟨.Backward, .int 0⟩, ⟨.Backward, .int 3⟩] 0 hInit =
      .ok ([.Clear true true, .Read 5 .RAM false], { hInit with n := 5 }) :=
  (C7_read_mapping_amended 9
      [⟨.Read, .pair 0 5⟩, ⟨.Backward, .int 0⟩, ⟨.Backward, .int 3⟩] 0 hInit
      0 5 .RAM rfl rfl rfl).2.2.1 (by decide) (by decide)
    (.backward 3) rfl (fun dn ds => by simp)

/-! ## Theorems: the sequence builder -/

/-- Unfolding: hrevolve_recurse at l = 0 returns the single Backward(0). -/
theorem recurse_l0 (P : HParams) (K cmem : ℕ) :
    hrevolve_recurse P 0 K cmem = .ok [⟨.Backward, .int 0⟩] := by
  rw [hrevolve_recurse]
  simp

/-- Unfolding: hrevolve_recurse with l > 0 and no memory anywhere raises
the dedicated no-memory error. -/
theorem recurse_noMem (P : HParams) (l : ℕ) (h0 : l ≠ 0) :
    hrevolve_recurse P l 0 0 = .error .noMemory := by
  rw [hrevolve_recurse]
  simp [h0]

/-- Unfolding: hrevolve_recurse at l = 1 with memory available returns the
fixed 8-operation schedule. -/
theorem recurse_l1 (P : HParams) (K cmem : ℕ) (h : ¬(K = 0 ∧ cmem = 0)) :
    hrevolve_recurse P 1 K cmem = .ok l1Schedule := by
  rw [hrevolve_recurse]
  simp [h]

/-- Unfolding: hrevolve_recurse at l ≥ 2, K ≥ 1 either writes at level K
and calls hrevolve_aux, or skips level K, by the cost comparison. -/
theorem recurse_step (P : HParams) (l K cmem : ℕ) (h0 : l ≠ 0) (h1 : l ≠ 1)
    (hK : K ≠ 0) :
    hrevolve_recurse P l K cmem =
      if ((P.wvect K : ℚ) : Cost) + P.hoptp K l cmem
          < P.hopt (K - 1) l (P.cvect (K - 1)) then
        match hrevolve_aux P l K cmem with
        | .error e => .error e
        | .ok s => .ok (⟨.Write, .pair (K : ℤ) 0⟩ :: s)
      else hrevolve_recurse P l (K - 1) (P.cvect (K - 1)) := by
  rw [hrevolve_recurse]
  simp [h0, h1, hK]

theorem recurse_k0 (P : HParams) (l cmem : ℕ) (h0 : l ≠ 0) (h1 : l ≠ 1)
    (hc : cmem ≠ 0) :
    hrevolve_recurse P l 0 cmem =
      match hrevolve_aux P l 0 cmem with
      | .error e => .error e
      | .ok s => .ok (⟨.Write, .pair 0 0⟩ :: s) := by
  rw [hrevolve_recurse]
  simp [h0, h1, hc]

theorem aux_scan (P : HParams) (l : ℕ) (h0 : l ≠ 0) (h1 : l ≠ 1) :
    hrevolve_aux P l 0 1 = .ok (scanSchedule l) := by
  rw [hrevolve_aux]
  simp [h0, h1]

theorem aux_k0_mem (P : HParams) (l cmem : ℕ) (hl : 2 ≤ l) (hc : 2 ≤ cmem) :
    hrevolve_aux P l 0 cmem =
      if minOver (listMem P 0 l cmem) l < P.hoptp 0 l 1 then
        (let jmin := argminOver (listMem P 0 l cmem) l
         match hrevolve_recurse P (l - jmin) 0 (cmem - 1) with
         | .error e => .error e
         | .ok s1 =>
           match hrevolve_aux P (jmin - 1) 0 cmem with
           | .error e => .error e
           | .ok s2 =>
             .ok (⟨.Forward, .pair 0 (jmin : ℤ)⟩ ::
               (s1.map (RawOp.shift jmin) ++ [⟨.Read, .pair 0 0⟩] ++ s2)))
      else .error .typeError := by
  rw [hrevolve_aux]
  rw [dif_neg (show ¬cmem = 0 by omega), dif_neg (show ¬l = 0 by omega),
    dif_neg (show ¬l = 1 by omega), dif_neg (show ¬((0 : ℕ) = 0 ∧ cmem = 1) by omega),
    dif_pos (show (0 : ℕ) = 0 from rfl)]

theorem scanSchedule_head (l : ℕ) (hl : 1 ≤ l) :
    ∃ rest, scanSchedule l = ⟨.Forward, .pair 0 (l : ℤ)⟩ :: rest := by
  unfold scanSchedule
  obtain ⟨n, rfl⟩ : ∃ n, l = n + 1 := ⟨l - 1, by omega⟩
  rw [List.range_succ, List.reverse_append]
  simp only [List.reverse_singleton, List.singleton_append, List.flatMap_cons]
  rw [if_neg (by omega)]
  have hcast : ((n : ℤ) + 1) = ((n + 1 : ℕ) : ℤ) := by push_cast; ring
  simp only [hcast, List.nil_append, List.cons_append, List.append_assoc]
  exact ⟨_, rfl⟩

/-- Claim C4.  In hrevolve_aux with l ≥ 2, K ≥ 1 and cmem ≥ 1, with
list_mem[j] = j*cfwd + hopt[K][l-j][cmem-1] + rvect[K] + hoptp[K][j-1][cmem]
for j in [1, l): if min(list_mem) < hopt[K-1][l][cvect[K-1]] then, for jmin
the smallest index attaining the minimum, the result is Forward(0, jmin-1),
then hrevolve_recurse(l-jmin, K, cmem-1) shifted by jmin, then Read(K, 0),
then hrevolve_aux(jmin-1, K, cmem); otherwise it equals
hrevolve_recurse(l, K-1, cvect[K-1]). -/
theorem C4_aux_at_level_k (P : HParams) (l K cmem : ℕ) (hl : 2 ≤ l)
    (hK : 1 ≤ K) (hc : 1 ≤ cmem) :
    hrevolve_aux P l K cmem =
      if minOver (listMem P K l cmem) l < P.hopt (K - 1) l (P.cvect (K - 1)) then
        (let jmin := argminOver (listMem P K l cmem) l
         match hrevolve_recurse P (l - jmin) K (cmem - 1) with
         | .error e => .error e
         | .ok s1 =>
           match hrevolve_aux P (jmin - 1) K cmem with
           | .error e => .error e
           | .ok s2 =>
             .ok (⟨.Forward, .pair 0 ((jmin - 1 : ℕ) : ℤ)⟩ ::
               (s1.map (RawOp.shift jmin) ++ [⟨.Read, .pair (K : ℤ) 0⟩] ++ s2)))
      else hrevolve_recurse P l (K - 1) (P.cvect (K - 1)) := by
  rw [hrevolve_aux]
  simp only [dif_neg (show ¬cmem = 0 by omega), dif_neg (show ¬l = 0 by omega),
    dif_neg (show ¬l = 1 by omega), dif_neg (show ¬(K = 0 ∧ cmem = 1) by omega),
    dif_neg (show ¬K = 0 by omega)]

/-- Claim C5, amended (forward directions).  hrevolve_recurse returns the
single Backward(0) for l = 0 regardless of K and cmem, and raises the
dedicated no-memory error whenever l > 0, K = 0 and cmem = 0. -/
theorem C5_recurse_no_memory_amended (P : HParams) (l K cmem : ℕ) :
    (l = 0 → hrevolve_recurse P l K cmem = .ok [⟨.Backward, .int 0⟩]) ∧
    (l ≠ 0 → K = 0 → cmem = 0 → hrevolve_recurse P l K cmem = .error .noMemory) := by
  constructor
  · rintro rfl
    exact recurse_l0 P K cmem
  · rintro h0 rfl rfl
    exact recurse_noMem P l h0

section ConcreteBuilder

attribute [local semireducible] Rat.add Rat.mul Rat.inv Rat.sub

/-- Claim C5 (counterexample).  The claimed equivalence fails in the
only-if direction: the call hrevolve_recurse(l = 2, K = 1, cmem = 3) on the
architecture cvect = (0, 3) (level 0 has no slots) raises the dedicated
no-memory error through its recursive delegation to level 0, although
K = 1 ≠ 0 at the call. -/
theorem C5_counterexample :
    hrevolve_recurse (mkHParams [0, 3] [0, 0] [0, 0] 1 (tablesOf (get_hopt_table 2 [0, 3] [0, 0] [0, 0] 2 1))) 2 1 3
        = .error .noMemory ∧ (1 : ℕ) ≠ 0 := by
  refine ⟨?_, by decide⟩
  rw [recurse_step _ 2 1 3 (by decide) (by decide) (by decide), if_neg (by decide)]
  exact recurse_noMem _ 2 (by decide)

/-- Witness for C5 (amended): both directions applied at concrete inputs. -/
theorem C5_amended_witness :
    hrevolve_recurse (mkHParams [1, 0] [0, 0] [0, 0] 1 ([], [])) 0 5 7
        = .ok [⟨.Backward, .int 0⟩] ∧
    hrevolve_recurse (mkHParams [1, 0] [0, 0] [0, 0] 1 ([], [])) 3 0 0
        = .error .noMemory :=
  ⟨(C5_recurse_no_memory_amended _ 0 5 7).1 rfl,
   (C5_recurse_no_memory_amended _ 3 0 0).2 (by decide) rfl rfl⟩

/-- Witness for C4: the branch equation applied at the concrete
architecture cvect = (1, 1) with default costs, l = 2, K = 1, cmem = 1. -/
theorem C4_witness :
    hrevolve_aux (mkHParams [1, 1] [0, 1/10] [0, 1/10] 1 (tablesOf (get_hopt_table 2 [1, 1] [0, 1/10] [0, 1/10] 2 1))) 2 1 1 =
      if minOver (listMem (mkHParams [1, 1] [0, 1/10] [0, 1/10] 1 (tablesOf (get_hopt_table 2 [1, 1] [0, 1/10] [0, 1/10] 2 1))) 1 2 1) 2
          < (mkHParams [1, 1] [0, 1/10] [0, 1/10] 1 (tablesOf (get_hopt_table 2 [1, 1] [0, 1/10] [0, 1/10] 2 1))).hopt 0 2
              ((mkHParams [1, 1] [0, 1/10] [0, 1/10] 1 (tablesOf (get_hopt_table 2 [1, 1] [0, 1/10] [0, 1/10] 2 1))).cvect 0) then
        (let jmin := argminOver (listMem (mkHParams [1, 1] [0, 1/10] [0, 1/10] 1 (tablesOf (get_hopt_table 2 [1, 1] [0, 1/10] [0, 1/10] 2 1))) 1 2 1) 2
         match hrevolve_recurse (mkHParams [1, 1] [0, 1/10] [0, 1/10] 1 (tablesOf (get_hopt_table 2 [1, 1] [0, 1/10] [0, 1/10] 2 1))) (2 - jmin) 1 0 with
         | .error e => .error e
         | .ok s1 =>
           match hrevolve_aux (mkHParams [1, 1] [0, 1/10] [0, 1/10] 1 (tablesOf (get_hopt_table 2 [1, 1] [0, 1/10] [0, 1/10] 2 1))) (jmin - 1) 1 1 with
           | .error e => .error e
           | .ok s2 =>
             .ok (⟨.Forward, .pair 0 ((jmin - 1 : ℕ) : ℤ)⟩ ::
               (s1.map (RawOp.shift jmin) ++ [⟨.Read, .pair (1 : ℤ) 0⟩] ++ s2)))
      else hrevolve_recurse (mkHParams [1, 1] [0, 1/10] [0, 1/10] 1 (tablesOf (get_hopt_table 2 [1, 1] [0, 1/10] [0, 1/10] 2 1))) 2 0 1 :=
  C4_aux_at_level_k _ 2 1 1 (by decide) (by decide) (by decide)


/-- Claim C1 (code_bug evidence).  For every max_n ≥ 1 and every pair of
slot counts, HRevolveCheckpointSchedule cannot produce the claimed action
stream: either construction already fails (snapshots_in_ram = 0 and
max_n ≥ 2 reach the no-memory error, because the table bug of C2 leaves
the level-1 cells at inf and the write-at-disk branch is never taken; with
exotic costs the builder can also hit the TypeError of its K = 0 fallback
branch), or iter() raises a type error at its first Forward operation,
whose pair index meets the adapter's scalar Forward branch (n_0 + 1 on a
list).  In every case no Reverse, EndForward or EndReverse is yielded.
The second conjunct pins the concrete failing run of the configuration
max_n = 1, snapshots_in_ram = 1, snapshots_on_disk = 0. -/
theorem C1_iter_always_fails :
    (∀ maxN ram disk : ℕ, 1 ≤ maxN →
      ∃ e, hrevolveSchedule maxN ram disk = .error e) ∧
    hrevolveSchedule 1 1 0 = .error .typeError := by
  have hconc : hrevolveSchedule 1 1 0 = .error .typeError := by
    have hg : get_hopt_table 1 [1, 0] [0, 1/10] [0, 1/10] 2 1 =
        .ok (tablesOf (get_hopt_table 1 [1, 0] [0, 1/10] [0, 1/10] 2 1)) := by decide
    have hb : hrevolve 1 [1, 0] [0, 1/10] [0, 1/10] 2 1 = .ok l1Schedule := by
      rw [hrevolve_pair_eq 1 1 0 _ hg]
      exact recurse_l1 _ 1 0 (by simp)
    rw [pipeline_of_builder_ok 1 1 0 _ hb]
    rfl
  refine ⟨?_, hconc⟩
  intro maxN ram disk hmax
  by_cases hm1 : maxN = 1
  · subst hm1
    cases hg : get_hopt_table 1 [ram, disk] [0, 1/10] [0, 1/10] 2 1 with
    | error e =>
      exact ⟨e, pipeline_of_builder_error 1 ram disk e (hrevolve_table_error 1 ram disk e hg)⟩
    | ok tabs =>
      refine ⟨.typeError, ?_⟩
      have hb : hrevolve 1 [ram, disk] [0, 1/10] [0, 1/10] 2 1 = .ok l1Schedule := by
        rw [hrevolve_pair_eq 1 ram disk tabs hg]
        exact recurse_l1 _ 1 disk (by simp)
      rw [pipeline_of_builder_ok 1 ram disk _ hb]
      rfl
  · have hm2 : 2 ≤ maxN := by omega
    cases hg : get_hopt_table maxN [ram, disk] [0, 1/10] [0, 1/10] 2 1 with
    | error e =>
      exact ⟨e, pipeline_of_builder_error maxN ram disk e
        (hrevolve_table_error maxN ram disk e hg)⟩
    | ok tabs =>
    have htopP := hopt_table_top_at_lmax maxN hm2 [ram, disk] [0, 1/10] [0, 1/10] 2 1 tabs hg
    have hPtp : ∀ k m,
        (mkHParams [ram, disk] [0, 1/10] [0, 1/10] 1 tabs).hoptp k maxN m = ⊤ :=
      fun k m => (htopP k m).1
    have hPt : ∀ k m,
        (mkHParams [ram, disk] [0, 1/10] [0, 1/10] 1 tabs).hopt k maxN m = ⊤ :=
      fun k m => (htopP k m).2
    have htop : hrevolve_recurse (mkHParams [ram, disk] [0, 1/10] [0, 1/10] 1 tabs)
        maxN 1 disk =
        hrevolve_recurse (mkHParams [ram, disk] [0, 1/10] [0, 1/10] 1 tabs) maxN 0 ram := by
      rw [recurse_step _ maxN 1 disk (by omega) (by omega) (by decide)]
      rw [if_neg (by rw [hPtp 1 disk, hPt]; simp)]
      exact rfl
    rcases Nat.eq_zero_or_pos ram with hr0 | hr1
    · subst hr0
      refine ⟨.noMemory, ?_⟩
      apply pipeline_of_builder_error
      rw [hrevolve_pair_eq maxN 0 disk tabs hg, htop]
      exact recurse_noMem _ maxN (by omega)
    · have hrec0 := recurse_k0 (mkHParams [ram, disk] [0, 1/10] [0, 1/10] 1 tabs)
        maxN ram (by omega) (by omega) (by omega)
      rcases eq_or_lt_of_le hr1 with hr1e | hr2
      · obtain rfl : ram = 1 := hr1e.symm
        obtain ⟨rest, hrest⟩ := scanSchedule_head maxN (by omega)
        have haux := aux_scan (mkHParams [1, disk] [0, 1/10] [0, 1/10] 1 tabs)
          maxN (by omega) (by omega)
        simp only [haux] at hrec0
        refine ⟨.typeError, ?_⟩
        have hb : hrevolve maxN [1, disk] [0, 1/10] [0, 1/10] 2 1 =
            .ok (⟨.Write, .pair 0 0⟩ :: scanSchedule maxN) := by
          rw [hrevolve_pair_eq maxN 1 disk tabs hg, htop, hrec0]
        rw [pipeline_of_builder_ok maxN 1 disk _ hb]
        apply runH_error_at_1 maxN _ ?_ [] { hInit with deferred := some (0, .RAM) } .typeError
        · exact stepHOp_write00 maxN _ rfl
        · apply stepHOp_forwardPair maxN _ 1 _ 0 (maxN : ℤ)
          rw [hrest]
          rfl
        · rw [hrest]
          simp
      · have hcond := aux_k0_mem (mkHParams [ram, disk] [0, 1/10] [0, 1/10] 1 tabs)
          maxN ram (by omega) (by omega)
        rw [hPtp 0 1] at hcond
        by_cases hC : minOver (listMem (mkHParams [ram, disk] [0, 1/10] [0, 1/10] 1 tabs)
            0 maxN ram) maxN < ⊤
        · rw [if_pos hC] at hcond
          cases hs1 : hrevolve_recurse (mkHParams [ram, disk] [0, 1/10] [0, 1/10] 1 tabs)
              (maxN - argminOver (listMem (mkHParams [ram, disk] [0, 1/10] [0, 1/10] 1 tabs)
                0 maxN ram) maxN) 0 (ram - 1) with
          | error e =>
            simp only [hs1] at hcond
            rw [hcond] at hrec0
            refine ⟨e, ?_⟩
            apply pipeline_of_builder_error
            rw [hrevolve_pair_eq maxN ram disk tabs hg, htop, hrec0]
          | ok s1 =>
            simp only [hs1] at hcond
            cases hs2 : hrevolve_aux (mkHParams [ram, disk] [0, 1/10] [0, 1/10] 1 tabs)
                (argminOver (listMem (mkHParams [ram, disk] [0, 1/10] [0, 1/10] 1 tabs)
                  0 maxN ram) maxN - 1) 0 ram with
            | error e =>
              simp only [hs2] at hcond
              rw [hcond] at hrec0
              refine ⟨e, ?_⟩
              apply pipeline_of_builder_error
              rw [hrevolve_pair_eq maxN ram disk tabs hg, htop, hrec0]
            | ok s2 =>
              simp only [hs2] at hcond
              rw [hcond] at hrec0
              refine ⟨.typeError, ?_⟩
              have hb : hrevolve maxN [ram, disk] [0, 1/10] [0, 1/10] 2 1 =
                  .ok (⟨.Write, .pair 0 0⟩ :: ⟨.Forward, .pair 0
                    ((argminOver (listMem (mkHParams [ram, disk] [0, 1/10] [0, 1/10] 1 tabs)
                      0 maxN ram) maxN : ℕ) : ℤ)⟩ ::
                    (s1.map (RawOp.shift (argminOver (listMem (mkHParams [ram, disk]
                      [0, 1/10] [0, 1/10] 1 tabs) 0 maxN ram) maxN))
                      ++ [⟨.Read, .pair 0 0⟩] ++ s2)) := by
                rw [hrevolve_pair_eq maxN ram disk tabs hg, htop, hrec0]
              rw [pipeline_of_builder_ok maxN ram disk _ hb]
              apply runH_error_at_1 maxN _ (by simp) [] { hInit with deferred := some (0, .RAM) } .typeError
              · exact stepHOp_write00 maxN _ rfl
              · exact stepHOp_forwardPair maxN _ 1 _ 0 _ rfl
        · rw [if_neg hC] at hcond
          rw [hcond] at hrec0
          refine ⟨.typeError, ?_⟩
          apply pipeline_of_builder_error
          rw [hrevolve_pair_eq maxN ram disk tabs hg, htop, hrec0]

end ConcreteBuilder

section TableFacts

attribute [local semireducible] Rat.add Rat.mul Rat.inv Rat.sub

/-- Claim C2 (code_bug evidence).  For every architecture, every cost
assignment and every lmax ≥ 2, both tables returned by get_hopt_table hold
+inf in every cell at length l = lmax: the fill loops run over
range(2, lmax) (and range(1, lmax) for k ≥ 1) and never touch l = lmax,
contradicting the claim (and the docstring) that the table is computed for
l = 0..lmax, where the stated recurrences give finite values (e.g. the
closed form for optp[0][lmax][1]). -/
theorem C2_hopt_cells_at_lmax_left_infinite (lmax : ℕ) (hl : 2 ≤ lmax)
    (cvect : List ℕ) (wvect rvect : List ℚ) (cbwd cfwd : ℚ) (q : Tbl × Tbl)
    (hq : get_hopt_table lmax cvect wvect rvect cbwd cfwd = .ok q) (k m : ℕ) :
    get3 q.1 k lmax m = ⊤ ∧ get3 q.2 k lmax m = ⊤ :=
  hopt_table_top_at_lmax lmax hl cvect wvect rvect cbwd cfwd q hq k m

/-- Witness for C2: get_hopt_table succeeds on the single-level
architecture with one slot, zero write and read costs and default step
costs, and the cells optp[0][2][1] and opt[0][2][1], reachable by the
level-0 closed form, are +inf. -/
theorem C2_witness :
    get_hopt_table 2 [1] [0] [0] 2 1 =
        .ok (tablesOf (get_hopt_table 2 [1] [0] [0] 2 1)) ∧
    get3 (tablesOf (get_hopt_table 2 [1] [0] [0] 2 1)).1 0 2 1 = ⊤ ∧
    get3 (tablesOf (get_hopt_table 2 [1] [0] [0] 2 1)).2 0 2 1 = ⊤ := by
  have h := C2_hopt_cells_at_lmax_left_infinite 2 (by decide) [1] [0] [0] 2 1
    (tablesOf (get_hopt_table 2 [1] [0] [0] 2 1)) (by decide) 0 1
  exact ⟨by decide, h.1, h.2⟩

/-- Claim C3 (code_bug evidence).  For lmax = 2, cvect = (1,1),
wvect = (1,0), rvect = (0,0), cbwd = 2, cfwd = 1, the claim asserts
optp[1][1][1] = cfwd + 2*cbwd + rvect[0] = 5.  get_hopt_table succeeds on
this input; the border initialization writes 5, but the k >= 1 fill loop
runs over range(1, lmax) and overwrites the cell with
opt[0][1][cvect[0]] = wvect[0] + 5 = 6. -/
theorem C3_hopt_base_l1_overwritten :
    get_hopt_table 2 [1, 1] [1, 0] [0, 0] 2 1 =
        .ok (tablesOf (get_hopt_table 2 [1, 1] [1, 0] [0, 0] 2 1)) ∧
    get3 (tablesOf (get_hopt_table 2 [1, 1] [1, 0] [0, 0] 2 1)).1 1 1 1
        = ((6 : ℚ) : Cost) ∧
    ((6 : ℚ) : Cost) ≠ ((1 + 2 * 2 + 0 : ℚ) : Cost) := by
  refine ⟨by decide, by decide, by decide⟩

end TableFacts

/-! ## Theorems: the two-level schedule -/

theorem tlSubAdvance_stack_bound (maxN snaps : ℕ) (bs : StorageType)
    (adv : ℕ → ℕ → ℕ) (r : ℕ) :
    ∀ fuel stack n tr n2 st2,
      tlSubAdvance maxN snaps bs adv r stack n fuel = some (tr, n2, st2) →
      stack.length ≤ snaps + 1 →
      (∀ p ∈ tr, p.2 ≤ snaps + 1) ∧ st2.length ≤ snaps + 1 := by
  intro fuel
  induction fuel with
  | zero =>
    intro stack n tr n2 st2 h
    simp [tlSubAdvance] at h
  | succ f ih =>
    intro stack n tr n2 st2 h hlen
    rw [tlSubAdvance] at h
    by_cases hlt : n < maxN - r - 1
    · rw [if_pos hlt] at h
      by_cases hk : adv (maxN - r - n) (snaps + 1 - stack.length) = 0
      · rw [if_pos hk] at h
        cases h
      · rw [if_neg hk] at h
        by_cases hg : snaps + 1 ≤ stack.length
        · rw [if_pos hg] at h
          cases h
        · rw [if_neg hg] at h
          cases hrec : tlSubAdvance maxN snaps bs adv r (n :: stack)
              (n + adv (maxN - r - n) (snaps + 1 - stack.length)) f with
          | none => rw [hrec] at h; cases h
          | some q =>
            rw [hrec] at h
            obtain ⟨tr', n2', st2'⟩ := q
            simp only [Option.some.injEq, Prod.mk.injEq] at h
            obtain ⟨htr, hn2, hst2⟩ := h
            have hpush : (n :: stack).length ≤ snaps + 1 := by
              simp only [List.length_cons]
              omega
            obtain ⟨ih1, ih2⟩ := ih (n :: stack) _ tr' n2' st2' hrec hpush
            subst htr hn2 hst2
            refine ⟨?_, ih2⟩
            intro p hp
            rcases List.mem_cons.mp hp with rfl | hp2
            · simpa using by omega
            · exact ih1 p hp2
    · rw [if_neg hlt] at h
      simp only [Option.some.injEq, Prod.mk.injEq] at h
      obtain ⟨htr, hn2, hst2⟩ := h
      subst htr hn2 hst2
      exact ⟨by simp, hlen⟩

theorem tlInner_stack_bound (maxN snaps : ℕ) (bs : StorageType)
    (adv : ℕ → ℕ → ℕ) (n0s : ℕ) :
    ∀ fuel stack r tr r2 st2,
      tlInner maxN snaps bs adv n0s stack r fuel = some (tr, r2, st2) →
      stack.length ≤ snaps + 1 →
      ∀ p ∈ tr, p.2 ≤ snaps + 1 := by
  intro fuel
  induction fuel with
  | zero =>
    intro stack r tr r2 st2 h
    simp [tlInner] at h
  | succ f ih =>
    intro stack r tr r2 st2 h hlen
    match stack, hlen with
    | [], _ =>
      rw [tlInner] at h
      by_cases hlt : r < maxN - n0s
      · rw [if_pos hlt] at h
        cases h
      · rw [if_neg hlt] at h
        simp only [Option.some.injEq, Prod.mk.injEq] at h
        obtain ⟨htr, hr2, hst2⟩ := h
        subst htr hr2 hst2
        simp
    | cp_n :: rest, hlen =>
      rw [tlInner] at h
      by_cases hlt : r < maxN - n0s
      rotate_left
      · rw [if_neg hlt] at h
        simp only [Option.some.injEq, Prod.mk.injEq] at h
        obtain ⟨htr, hr2, hst2⟩ := h
        subst htr hr2 hst2
        simp
      · rw [if_pos hlt] at h
        have hrest : rest.length ≤ snaps + 1 := by
          simp only [List.length_cons] at hlen
          omega
        by_cases htgt : cp_n = maxN - r - 1
        · rw [if_pos htgt] at h
          cases hrec : tlInner maxN snaps bs adv n0s rest (r + 1) f with
          | none => exact Option.noConfusion (hrec ▸ h)
          | some q =>
            obtain ⟨tr', r2', st2'⟩ := q
            simp only [hrec] at h
            simp only [Option.some.injEq, Prod.mk.injEq] at h
            obtain ⟨htr, hr2, hst2⟩ := h
            subst htr hr2 hst2
            have ihh := ih rest (r + 1) tr' r2' st2' hrec hrest
            intro p hp
            rcases List.mem_cons.mp hp with rfl | hp2
            · simpa using hrest
            · rcases List.mem_cons.mp hp2 with rfl | hp3
              · simpa using hrest
              · rcases List.mem_cons.mp hp3 with rfl | hp4
                · simpa using hrest
                · exact ihh p hp4
        · rw [if_neg htgt] at h
          by_cases hk : adv (maxN - r - cp_n) (snaps + 1 - (cp_n :: rest).length + 1) = 0
          · rw [if_pos hk] at h
            cases h
          · rw [if_neg hk] at h
            cases hsub : tlSubAdvance maxN snaps bs adv r (cp_n :: rest)
                (cp_n + adv (maxN - r - cp_n) (snaps + 1 - (cp_n :: rest).length + 1)) f with
            | none => rw [hsub] at h; cases h
            | some q =>
              obtain ⟨tr2, n2, st2'⟩ := q
              simp only [hsub] at h
              by_cases hn2 : n2 ≠ maxN - r - 1
              · rw [if_pos hn2] at h
                cases h
              · rw [if_neg hn2] at h
                cases hrec : tlInner maxN snaps bs adv n0s st2' (r + 1) f with
                | none => exact Option.noConfusion (hrec ▸ h)
                | some q2 =>
                  obtain ⟨tr3, r3, st3⟩ := q2
                  simp only [hrec] at h
                  simp only [Option.some.injEq, Prod.mk.injEq] at h
                  obtain ⟨htr, hr2, hst2⟩ := h
                  subst htr hr2 hst2
                  obtain ⟨hsub1, hsub2⟩ :=
                    tlSubAdvance_stack_bound maxN snaps bs adv r f (cp_n :: rest) _
                      tr2 n2 st2' hsub hlen
                  have ihh := ih st2' (r + 1) tr3 r3 st3 hrec hsub2
                  intro p hp
                  rcases List.mem_cons.mp hp with rfl | hp2
                  · simpa using hlen
                  · rcases List.mem_cons.mp hp2 with rfl | hp3
                    · simpa using hlen
                    · rcases List.mem_append.mp hp3 with hp4 | hp5
                      · exact hsub1 p hp4
                      · rcases List.mem_cons.mp hp5 with rfl | hp6
                        · simpa using hsub2
                        · rcases List.mem_cons.mp hp6 with rfl | hp7
                          · simpa using hsub2
                          · exact ihh p hp7

theorem tlBlock_stack_bound (maxN period snaps : ℕ) (bs : StorageType)
    (adv : ℕ → ℕ → ℕ) (r fuel : ℕ) (tr : List (TAction × ℕ)) (r2 : ℕ)
    (st2 : List ℕ)
    (h : tlBlock maxN period snaps bs adv r fuel = some (tr, r2, st2)) :
    (∀ p ∈ tr, p.2 ≤ snaps + 1) ∧ st2 = [] := by
  unfold tlBlock at h
  by_cases hph : r ≠ maxN - min ((maxN - r - 1) / period * period + period) maxN
  · rw [if_pos hph] at h
    cases h
  · rw [if_neg hph] at h
    cases hin : tlInner maxN snaps bs adv ((maxN - r - 1) / period * period)
        [(maxN - r - 1) / period * period] r fuel with
    | none => exact Option.noConfusion (hin ▸ h)
    | some q =>
      obtain ⟨tr', r2', st2'⟩ := q
      simp only [hin] at h
      by_cases hr2 : r2' ≠ maxN - (maxN - r - 1) / period * period
      · rw [if_pos hr2] at h
        cases h
      · rw [if_neg hr2] at h
        by_cases hst : st2' ≠ []
        · rw [if_pos hst] at h
          cases h
        · rw [if_neg hst] at h
          simp only [Option.some.injEq, Prod.mk.injEq] at h
          obtain ⟨htr, hrr, hss⟩ := h
          subst htr hrr hss
          refine ⟨?_, by simpa using hst⟩
          exact tlInner_stack_bound maxN snaps bs adv _ fuel _ r tr' r2' st2' hin
            (by simp)

theorem tlReverseLoop_stack_bound (maxN period snaps : ℕ) (bs : StorageType)
    (adv : ℕ → ℕ → ℕ) :
    ∀ fuel r tr r2,
      tlReverseLoop maxN period snaps bs adv r fuel = some (tr, r2) →
      ∀ p ∈ tr, p.2 ≤ snaps + 1 := by
  intro fuel
  induction fuel with
  | zero =>
    intro r tr r2 h
    simp [tlReverseLoop] at h
  | succ f ih =>
    intro r tr r2 h
    rw [tlReverseLoop] at h
    by_cases hlt : r < maxN
    · rw [if_pos hlt] at h
      cases hb : tlBlock maxN period snaps bs adv r f with
      | none => exact Option.noConfusion (hb ▸ h)
      | some q =>
        obtain ⟨tr', r2', st'⟩ := q
        simp only [hb] at h
        cases hrl : tlReverseLoop maxN period snaps bs adv r2' f with
        | none => exact Option.noConfusion (hrl ▸ h)
        | some q2 =>
          obtain ⟨tr2, r3⟩ := q2
          simp only [hrl] at h
          simp only [Option.some.injEq, Prod.mk.injEq] at h
          obtain ⟨htr, hr3⟩ := h
          subst htr hr3
          intro p hp
          rcases List.mem_append.mp hp with hp1 | hp2
          · exact (tlBlock_stack_bound maxN period snaps bs adv r f tr' r2' st' hb).1 p hp1
          · exact ih r2' tr2 r3 hrl p hp2
    · rw [if_neg hlt] at h
      simp only [Option.some.injEq, Prod.mk.injEq] at h
      obtain ⟨htr, hr2⟩ := h
      subst htr hr2
      simp

/-- Claim C10.  In a completed reverse pass of the two-level schedule, the
live snapshot stack holds at most binomial_snapshots + 1 entries at every
yield point (the guard raises the invalid-checkpointing-state error before
the bound would be exceeded, making deeper stacks unreachable), and every
completed period block ends with an empty stack. -/
theorem C10_twolevel_stack_bound (maxN period snaps : ℕ) (bs : StorageType)
    (adv : ℕ → ℕ → ℕ) (fuel : ℕ) (tr : List (TAction × ℕ)) (rEnd : ℕ)
    (h : tlOnePass maxN period snaps bs adv fuel = some (tr, rEnd)) :
    (∀ p ∈ tr, p.2 ≤ snaps + 1) ∧
    (∀ r f tr2 r2 st2, tlBlock maxN period snaps bs adv r f = some (tr2, r2, st2) →
      st2 = []) := by
  constructor
  · unfold tlOnePass at h
    cases hrl : tlReverseLoop maxN period snaps bs adv 0 fuel with
    | none => exact Option.noConfusion (hrl ▸ h)
    | some q =>
      obtain ⟨tr0, r2⟩ := q
      simp only [hrl] at h
      by_cases hr : r2 ≠ maxN
      · rw [if_pos hr] at h
        cases h
      · rw [if_neg hr] at h
        simp only [Option.some.injEq, Prod.mk.injEq] at h
        obtain ⟨htr, hre⟩ := h
        subst htr hre
        intro p hp
        rcases List.mem_append.mp hp with hp1 | hp2
        · exact tlReverseLoop_stack_bound maxN period snaps bs adv fuel 0 tr0 r2 hrl p hp1
        · simp only [List.mem_singleton] at hp2
          subst hp2
          simp
  · intro r f tr2 r2 st2 hb
    exact (tlBlock_stack_bound maxN period snaps bs adv r f tr2 r2 st2 hb).2

/-- Witness for C10: a completed pass for max_n = 2, period = 2, no
binomial snapshots, with the unit advance function. -/
theorem C10_witness :
    (∀ p ∈ [((TAction.Copy 0 .DISK .FWD_RESTART : TAction), 1),
        (.Forward 0 1 false false .FWD_RESTART, 1),
        (.Forward 1 2 false true .ADJ_DEPS, 1), (.Reverse 2 1 true, 1),
        (.Copy 0 .DISK .FWD_RESTART, 0), (.Forward 0 1 false true .ADJ_DEPS, 0),
        (.Reverse 1 0 true, 0), (.EndReverse false, 0)], p.2 ≤ 0 + 1) ∧
    (∀ r f tr2 r2 st2, tlBlock 2 2 0 .RAM (fun _ _ => 1) r f = some (tr2, r2, st2) →
      st2 = []) :=
  C10_twolevel_stack_bound 2 2 0 .RAM (fun _ _ => 1) 20 _ 0 (by decide)

/-- Claim C9.  Every completed reverse pass of the two-level schedule ends
by emitting EndReverse(False) with r reset to 0, the while True loop then
produces another identical full reverse pass, and is_exhausted is False. -/
theorem C9_twolevel_restartable (maxN period snaps : ℕ) (bs : StorageType)
    (adv : ℕ → ℕ → ℕ) (fuel : ℕ) (tr : List (TAction × ℕ)) (rEnd : ℕ)
    (h : tlOnePass maxN period snaps bs adv fuel = some (tr, rEnd)) :
    (tr.map Prod.fst).getLast? = some (.EndReverse false) ∧ rEnd = 0 ∧
    tlPasses maxN period snaps bs adv fuel 2 = some (tr ++ tr) ∧
    twoLevelIsExhausted = false := by
  have h0 := h
  unfold tlOnePass at h
  cases hrl : tlReverseLoop maxN period snaps bs adv 0 fuel with
  | none => exact Option.noConfusion (hrl ▸ h)
  | some q =>
    obtain ⟨tr0, r2⟩ := q
    simp only [hrl] at h
    by_cases hr : r2 ≠ maxN
    · rw [if_pos hr] at h
      cases h
    · rw [if_neg hr] at h
      simp only [Option.some.injEq, Prod.mk.injEq] at h
      obtain ⟨htr, hre⟩ := h
      subst htr
      refine ⟨?_, hre.symm, ?_, rfl⟩
      · rw [List.map_append]
        simp
      · rw [tlPasses, h0, tlPasses, h0, tlPasses]
        simp

/-- Witness for C9: the completed pass for max_n = 2, period = 1, no
binomial snapshots, with the unit advance function. -/
theorem C9_witness :
    ([((TAction.Copy 1 .DISK .FWD_RESTART : TAction), 0),
        (.Forward 1 2 false true .ADJ_DEPS, 0), (.Reverse 2 1 true, 0),
        (.Copy 0 .DISK .FWD_RESTART, 0), (.Forward 0 1 false true .ADJ_DEPS, 0),
        (.Reverse 1 0 true, 0),
        (.EndReverse false, 0)].map Prod.fst).getLast? = some (.EndReverse false) ∧
    (0 : ℕ) = 0 ∧
    tlPasses 2 1 0 .RAM (fun _ _ => 1) 20 2 =
      some ([((TAction.Copy 1 .DISK .FWD_RESTART : TAction), 0),
        (.Forward 1 2 false true .ADJ_DEPS, 0), (.Reverse 2 1 true, 0),
        (.Copy 0 .DISK .FWD_RESTART, 0), (.Forward 0 1 false true .ADJ_DEPS, 0),
        (.Reverse 1 0 true, 0), (.EndReverse false, 0)] ++
        [((TAction.Copy 1 .DISK .FWD_RESTART : TAction), 0),
        (.Forward 1 2 false true .ADJ_DEPS, 0), (.Reverse 2 1 true, 0),
        (.Copy 0 .DISK .FWD_RESTART, 0), (.Forward 0 1 false true .ADJ_DEPS, 0),
        (.Reverse 1 0 true, 0), (.EndReverse false, 0)]) ∧
    twoLevelIsExhausted = false :=
  C9_twolevel_restartable 2 1 0 .RAM (fun _ _ => 1) 20 _ 0 (by decide)

/-- Claim C8 (code_bug evidence).  uses_storage_type compares only with
the binomial storage: with binomial_storage = RAM the query for DISK
returns False, although the schedule always emits DISK-storage actions --
every forward-phase Forward carries storage = DISK, and a completed
reverse pass contains a Copy from DISK (the docstring promises 'whether
this schedule uses the given storage type'). -/
theorem C8_uses_storage_type_ignores_disk :
    uses_storage_type StorageType.RAM StorageType.DISK = false ∧
    (∀ n0 p, tlForwardStep n0 p = .Forward n0 (n0 + p) true false .DISK) ∧
    ∃ tr, tlOnePass 2 1 0 .RAM (fun _ _ => 1) 20 = some (tr, 0) ∧
      (TAction.Copy 1 .DISK .FWD_RESTART, 0) ∈ tr :=
  ⟨rfl, fun _ _ => rfl,
   ⟨[(.Copy 1 .DISK .FWD_RESTART, 0), (.Forward 1 2 false true .ADJ_DEPS, 0),
     (.Reverse 2 1 true, 0), (.Copy 0 .DISK .FWD_RESTART, 0),
     (.Forward 0 1 false true .ADJ_DEPS, 0), (.Reverse 1 0 true, 0),
     (.EndReverse false, 0)], by decide, by decide⟩⟩

end CpSched
